import Mathlib

/-!
# Traffic light simulator: message queue and phase actor

A shallow embedding of `src/TrafficLight.cpp`.

* `MessageQueue` is the single-slot channel: the container `_msgs` is a list
  whose last element is `back()`.  The bodies of `send` and `receive` run
  entirely under `_mqMutex`, so each is one atomic transition of the
  container; a `receive` whose wait predicate `!_msgs.empty()` is false stays
  suspended in `_cond.wait`, which is the result `none`.
* `SendThreads` splits `send` into its statements and interleaves several
  producer threads under an explicit model of the mutex.
* `waitForGreen` is the loop of `TrafficLight::waitForGreen` over an abstract
  `receive`.
* `cycleThroughPhases` is the loop of `TrafficLight::cycleThroughPhases`, one
  iteration per step, reading an injected clock and an injected stream of
  random draws.  The test of the loop is evaluated in `float` as in the
  source: `round32` is rounding to binary32.
-/

namespace TrafficLightSim

/-! ## MessageQueue -/

/-- `clear()` of the container. -/
@[simp] def Deque.clear {T : Type} (_l : List T) : List T := []

/-- `emplace_back(x)` of the container: `x` becomes the last element. -/
@[simp] def Deque.emplace_back {T : Type} (l : List T) (x : T) : List T := l ++ [x]

/-- `empty()` of the container. -/
@[simp] def Deque.empty {T : Type} (l : List T) : Bool := l.isEmpty

/-- `back()` of the container: the last element, when there is one. -/
@[simp] def Deque.back {T : Type} (l : List T) : Option T := l.getLast?

/-- `pop_back()` of the container: the last element is removed. -/
@[simp] def Deque.pop_back {T : Type} (l : List T) : List T := l.dropLast

/-- The channel `MessageQueue<T>`: the container `_msgs`, oldest element first,
so that `back()` is the last element of the list. -/
structure MessageQueue (T : Type) where
  _msgs : List T
deriving DecidableEq, Repr

namespace MessageQueue

variable {T : Type}

/-- A freshly constructed channel: the container is empty. -/
def fresh : MessageQueue T := ⟨[]⟩

/-- The body of `MessageQueue<T>::send`: `_msgs.clear()` followed by
`_msgs.emplace_back(std::move(msg))` (the notification changes no data). -/
def send (q : MessageQueue T) (msg : T) : MessageQueue T :=
  ⟨Deque.emplace_back (Deque.clear q._msgs) msg⟩

/-- The body of `MessageQueue<T>::receive`: when the wait predicate
`!_msgs.empty()` holds, the result is `_msgs.back()` and the container after
`_msgs.pop_back()`; when it does not hold the caller stays suspended in
`_cond.wait`, written `none`. -/
def receive (q : MessageQueue T) : Option (T × MessageQueue T) :=
  if !Deque.empty q._msgs then
    match Deque.back q._msgs with
    | some msg => some (msg, ⟨Deque.pop_back q._msgs⟩)
    | none => none
  else
    none

/-- A run of `send` calls, one after another, in list order. -/
def sendAll (q : MessageQueue T) : List T → MessageQueue T
  | [] => q
  | v :: vs => sendAll (q.send v) vs

/-- An operation on a channel: a `send` with its argument, or a `receive`. -/
inductive Op (T : Type) where
  | send (msg : T)
  | receive
deriving DecidableEq, Repr

/-- One operation applied to a channel; a `receive` that cannot complete
returns `none` (the operation is not enabled). -/
def applyOp (q : MessageQueue T) : Op T → Option (MessageQueue T)
  | Op.send msg => some (q.send msg)
  | Op.receive => (q.receive).map Prod.snd

/-- A finite sequence of operations applied in order; `none` when one of the
receives is not enabled at its turn. -/
def exec (q : MessageQueue T) : List (Op T) → Option (MessageQueue T)
  | [] => some q
  | op :: ops => (applyOp q op).bind (fun q' => exec q' ops)

end MessageQueue

/-! ## Producer threads inside `send` -/

/-- The next statement a producer thread executes inside
`MessageQueue<T>::send`. -/
inductive SendPc where
  | atLock
  | atClear
  | atEmplace
  | atNotify
  | atUnlock
  | done
deriving DecidableEq, Repr

/-- Whether the thread is between acquiring and releasing `_mqMutex`. -/
def SendPc.inCS : SendPc → Bool
  | .atClear | .atEmplace | .atNotify | .atUnlock => true
  | .atLock | .done => false

/-- A producer thread running one call of `send`: its argument and its
position in the body. -/
structure SendThread (T : Type) where
  pc : SendPc
  msg : T
deriving DecidableEq, Repr

/-- Several producer threads on one channel: the owner of `_mqMutex`, the
container, and the threads. -/
structure SendThreads (T : Type) where
  holder : Option Nat
  _msgs : List T
  threads : List (SendThread T)
deriving DecidableEq, Repr

namespace SendThreads

variable {T : Type}

/-- All producers are about to call `send`, the mutex is free and the
container holds `m0`. -/
def init (m0 : List T) (vals : List T) : SendThreads T :=
  ⟨none, m0, vals.map (fun v => ⟨.atLock, v⟩)⟩

/-- Thread `i` executes its next statement. A thread that waits for the
mutex, has finished, or does not exist leaves the state as it is. -/
def step (s : SendThreads T) (i : Nat) : SendThreads T :=
  match s.threads[i]? with
  | none => s
  | some t =>
    match t.pc with
    | .atLock =>
      match s.holder with
      | none => { s with holder := some i, threads := s.threads.set i { t with pc := .atClear } }
      | some _ => s
    | .atClear =>
      { s with _msgs := Deque.clear s._msgs,
               threads := s.threads.set i { t with pc := .atEmplace } }
    | .atEmplace =>
      { s with _msgs := Deque.emplace_back s._msgs t.msg,
               threads := s.threads.set i { t with pc := .atNotify } }
    | .atNotify => { s with threads := s.threads.set i { t with pc := .atUnlock } }
    | .atUnlock => { s with holder := none, threads := s.threads.set i { t with pc := .done } }
    | .done => s

/-- The threads take steps in the order the schedule names them. -/
def run (s : SendThreads T) : List Nat → SendThreads T
  | [] => s
  | i :: sched => run (s.step i) sched

/-- Every producer has returned from `send`. -/
def allDone (s : SendThreads T) : Bool := s.threads.all (fun t => t.pc == .done)

/-- The invariant of the interleaved sends. -/
structure Inv (vals : List T) (s : SendThreads T) : Prop where
  msg_mem : ∀ t ∈ s.threads, t.msg ∈ vals
  cs_holder : ∀ (i : Nat) (t : SendThread T), s.threads[i]? = some t → t.pc.inCS = true → s.holder = some i
  holder_cs : ∀ i, s.holder = some i → ∃ t, s.threads[i]? = some t ∧ t.pc.inCS = true
  emplace : ∀ (i : Nat) (t : SendThread T), s.threads[i]? = some t → t.pc = .atEmplace → s._msgs = []
  stored : ∀ (i : Nat) (t : SendThread T), s.threads[i]? = some t → (t.pc = .atNotify ∨ t.pc = .atUnlock) →
    s._msgs = [t.msg]
  free : s.holder = none → (∃ t ∈ s.threads, t.pc = .done) → ∃ v ∈ vals, s._msgs = [v]

end SendThreads

/-! ## TrafficLight -/

/-- The enumeration `TrafficLightPhase`. -/
inductive TrafficLightPhase where
  | red
  | green
deriving DecidableEq, Repr

/-- The data members of `TrafficLight` used by the methods below. -/
structure TrafficLight where
  _currentPhase : TrafficLightPhase
  _queue : MessageQueue TrafficLightPhase
deriving DecidableEq, Repr

/-- The constructor `TrafficLight::TrafficLight`: the phase is red and the
channel is empty. -/
def TrafficLight.ctor : TrafficLight := ⟨.red, MessageQueue.fresh⟩

/-- `TrafficLight::getCurrentPhase`. -/
def TrafficLight.getCurrentPhase (l : TrafficLight) : TrafficLightPhase := l._currentPhase

/-- How a bounded run of the loop of `waitForGreen` ends: the loop reached
`break` and the method returned; or a `receive` could not complete and the
caller is suspended inside it; or the run is still in the loop after the given
number of iterations. The argument is the state of the channel at that point. -/
inductive WaitResult (σ : Type) where
  | returned (s : σ)
  | blocked (s : σ)
  | running (s : σ)
deriving DecidableEq, Repr

/-- The loop of `TrafficLight::waitForGreen`, for at most `fuel` iterations,
over a channel with state `σ` and operation `receive`: each iteration calls
`receive`, and leaves the loop when the message is green. -/
def waitForGreen {σ : Type} (receive : σ → Option (TrafficLightPhase × σ)) :
    Nat → σ → WaitResult σ
  | 0, s => .running s
  | fuel + 1, s =>
    match receive s with
    | none => .blocked s
    | some (msg, s') =>
      if msg = TrafficLightPhase.green then .returned s'
      else waitForGreen receive fuel s'

/-- A channel that delivers a prescribed sequence of values: the state is the
number of values delivered so far, and the `i`-th receive returns `d i`; where
`d i` is `none` that receive never completes. -/
def deliver (d : Nat → Option TrafficLightPhase) (i : Nat) :
    Option (TrafficLightPhase × Nat) :=
  (d i).map (fun msg => (msg, i + 1))

/-- The local variables of `cycleThroughPhases` together with the object, the
number of calls made so far to `high_resolution_clock::now()` and to
`distr(eng)`, and the values passed so far to `_queue.send`, oldest first. -/
structure CycleState where
  light : TrafficLight
  cycle_duration : Int
  start : Int
  nowCalls : Nat
  distrCalls : Nat
  sent : List TrafficLightPhase
deriving DecidableEq, Repr

/-- Rounding of a rational to the nearest integer, ties to the even one. -/
def roundHalfEven (x : ℚ) : ℤ :=
  let f := ⌊x⌋
  if x - f < 1 / 2 then f
  else if 1 / 2 < x - f then f + 1
  else if f % 2 = 0 then f else f + 1

/-- Rounding to `float` (binary32, round to nearest, ties to even): for `x` in
the binade `2^e ≤ |x| < 2^(e+1)` the result is the nearest multiple of
`2^(e-23)`, which leaves 24 significant bits. Only the normal range is
modelled; the values rounded below are a 64-bit tick count, that count over
`10^9` and that quotient times 1000, none of which is subnormal or overflows. -/
def round32 (x : ℚ) : ℚ :=
  if x = 0 then 0
  else
    let e := Int.log 2 |x|
    (roundHalfEven (x / (2 : ℚ) ^ (e - 23)) : ℚ) * (2 : ℚ) ^ (e - 23)

/-- The `float` value of `elapsed.count()*1000` for an elapsed time of
`elapsed` nanoseconds. `elapsed` is a `std::chrono::duration<float>`: the
assignment on line 99 converts the tick count to `float` and divides it by
`float(10^9)`, and the product with 1000 on line 101 is again a `float`. The
constants `10^9` and 1000 are binary32 values. -/
def elapsedMillis32 (elapsed : Int) : ℚ :=
  round32 (round32 (round32 (elapsed : ℚ) / 1000000000) * 1000)

/-- The test `elapsed.count()*1000 > cycle_duration` of line 101, evaluated in
`float` as the code does: the right-hand side is `cycle_duration` converted to
`float`. -/
def toggleDue (elapsed : Int) (cycle_duration : Int) : Bool :=
  decide (elapsedMillis32 elapsed > round32 (cycle_duration : ℚ))

/-- The statements of `cycleThroughPhases` before the loop: the first draw
`distr(eng)` and the first reading of the clock. `clock i` is the value of the
`i`-th call of `high_resolution_clock::now()` in nanoseconds, `distr i` the
value of the `i`-th call of `distr(eng)`. -/
def cycleStart (clock : Nat → Int) (distr : Nat → Int) (light : TrafficLight) : CycleState :=
  { light := light
    cycle_duration := distr 0
    start := clock 0
    nowCalls := 1
    distrCalls := 1
    sent := [] }

/-- One iteration of the `while(true)` loop of `cycleThroughPhases`. -/
def iteration (clock : Nat → Int) (distr : Nat → Int) (s : CycleState) : CycleState :=
  let elapsed := clock s.nowCalls - s.start
  if toggleDue elapsed s.cycle_duration then
    let cycle_duration := distr s.distrCalls
    let start := clock (s.nowCalls + 1)
    let phase :=
      if s.light._currentPhase = TrafficLightPhase.red then TrafficLightPhase.green
      else TrafficLightPhase.red
    let msg := phase
    { light := ⟨phase, s.light._queue.send msg⟩
      cycle_duration := cycle_duration
      start := start
      nowCalls := s.nowCalls + 2
      distrCalls := s.distrCalls + 1
      sent := s.sent ++ [msg] }
  else
    { s with nowCalls := s.nowCalls + 1 }

/-- The state of `cycleThroughPhases` after `n` iterations of its loop. -/
def cycleThroughPhases (clock : Nat → Int) (distr : Nat → Int) (light : TrafficLight) :
    Nat → CycleState
  | 0 => cycleStart clock distr light
  | n + 1 => iteration clock distr (cycleThroughPhases clock distr light n)

/-- A clock whose successive readings are five seconds apart. -/
def clockEvery5s (i : Nat) : Int := 5000000000 * i

/-- A clock whose successive readings are three seconds apart. -/
def clockEvery3s (i : Nat) : Int := 3000000000 * i

/-- A clock that reads 0, then 6000000200, then 6000001000 from then on. -/
def clockLate (i : Nat) : Int :=
  if i = 0 then 0 else if i = 1 then 6000000200 else 6000001000

/-- A generator that always draws 4000. -/
def distrConst4000 (_i : Nat) : Int := 4000

/-- A generator that always draws 6000. -/
def distrConst6000 (_i : Nat) : Int := 6000

/-! ## Lemmas on the channel -/

namespace MessageQueue

variable {T : Type}

theorem send_msgs (q : MessageQueue T) (msg : T) : (q.send msg)._msgs = [msg] := rfl

theorem receive_single (v : T) : receive (⟨[v]⟩ : MessageQueue T) = some (v, fresh) := rfl

theorem receive_nil : receive (⟨[]⟩ : MessageQueue T) = none := rfl

theorem receive_eq_none_iff (q : MessageQueue T) : q.receive = none ↔ q._msgs = [] := by
  obtain ⟨l⟩ := q
  cases l with
  | nil => simp [receive]
  | cons a l =>
    have h : (a :: l).getLast? = some ((a :: l).getLast (by simp)) :=
      List.getLast?_eq_getLast _ _
    simp [receive, h]

theorem sendAll_append (q : MessageQueue T) (vs : List T) (v : T) :
    sendAll q (vs ++ [v]) = (sendAll q vs).send v := by
  induction vs generalizing q with
  | nil => rfl
  | cons a vs ih => simpa [sendAll] using ih (q.send a)

theorem sendAll_msgs (q : MessageQueue T) (vs : List T) (h : vs ≠ []) :
    (sendAll q vs)._msgs = [vs.getLast h] := by
  induction vs generalizing q with
  | nil => exact absurd rfl h
  | cons a vs ih =>
    cases vs with
    | nil => rfl
    | cons b vs =>
      have := ih (q.send a) (by simp)
      simpa [sendAll] using this

theorem applyOp_length {q q' : MessageQueue T} {op : Op T}
    (hq : q._msgs.length ≤ 1) (h : applyOp q op = some q') : q'._msgs.length ≤ 1 := by
  cases op with
  | send msg =>
    simp only [applyOp, Option.some.injEq] at h
    subst h
    simp [send_msgs]
  | receive =>
    obtain ⟨l⟩ := q
    match l, hq with
    | [], _ => simp [applyOp, receive] at h
    | [v], _ =>
      simp only [applyOp, receive_single, Option.map_some', Option.some.injEq] at h
      subst h
      simp [fresh]

theorem exec_length {q q' : MessageQueue T} {ops : List (Op T)}
    (hq : q._msgs.length ≤ 1) (h : exec q ops = some q') : q'._msgs.length ≤ 1 := by
  induction ops generalizing q with
  | nil =>
    simp only [exec, Option.some.injEq] at h
    subst h
    exact hq
  | cons op ops ih =>
    simp only [exec] at h
    cases hop : applyOp q op with
    | none => simp [hop] at h
    | some q1 =>
      rw [hop] at h
      exact ih (applyOp_length hq hop) h

end MessageQueue

/-! ## Claims on the channel -/

/-- C1: last write wins. For every non-empty sequence of values passed to
`send` one after another on a fresh channel, with no receive in between, the
following `receive` returns the last value sent and leaves the channel empty. -/
theorem C1_last_write_wins {T : Type} (vs : List T) (h : vs ≠ []) :
    (MessageQueue.sendAll (MessageQueue.fresh : MessageQueue T) vs).receive
      = some (vs.getLast h, MessageQueue.fresh) := by
  have hm := MessageQueue.sendAll_msgs (MessageQueue.fresh : MessageQueue T) vs h
  have hq : MessageQueue.sendAll (MessageQueue.fresh : MessageQueue T) vs
      = ⟨[vs.getLast h]⟩ := by
    cases hs : MessageQueue.sendAll (MessageQueue.fresh : MessageQueue T) vs
    rw [hs] at hm
    simpa using hm
  rw [hq]
  rfl

/-- Witness for C1: after sending 3, 1, 2 the receive returns 2. -/
theorem C1_last_write_wins_witness :
    ([3, 1, 2] : List Nat) ≠ [] ∧
    (MessageQueue.sendAll (MessageQueue.fresh : MessageQueue Nat) [3, 1, 2]).receive
      = some (2, MessageQueue.fresh) :=
  ⟨by decide, C1_last_write_wins [3, 1, 2] (by decide)⟩

/-- C2: buffer bound. Every state reached from the empty channel by a finite
sequence of `send` and enabled `receive` operations holds at most one value,
and right after a `send` (from any state) the container holds exactly the
value just sent. -/
theorem C2_buffer_bound {T : Type} (ops : List (MessageQueue.Op T)) (q : MessageQueue T)
    (h : MessageQueue.exec MessageQueue.fresh ops = some q) :
    q._msgs.length ≤ 1 ∧ ∀ (p : MessageQueue T) (v : T), (p.send v)._msgs = [v] :=
  ⟨MessageQueue.exec_length (by simp [MessageQueue.fresh]) h, fun _ _ => rfl⟩

/-- Witness for C2: the run send 1, send 2, receive, send 3. -/
theorem C2_buffer_bound_witness :
    (⟨[3]⟩ : MessageQueue Nat)._msgs.length ≤ 1 ∧
    ∀ (p : MessageQueue Nat) (v : Nat), (p.send v)._msgs = [v] :=
  C2_buffer_bound [.send 1, .send 2, .receive, .send 3] ⟨[3]⟩ (by decide)

/-- C3: receive contract. In every state reached from the empty channel by
sends and enabled receives, `receive` cannot complete exactly when the
container is empty, and when the container is non-empty it returns the
buffered value and leaves the container empty. A receive on a fresh channel
cannot complete, and after one `send v` on it the receive returns `v`. -/
theorem C3_receive_contract {T : Type} (ops : List (MessageQueue.Op T)) (q : MessageQueue T)
    (h : MessageQueue.exec MessageQueue.fresh ops = some q) :
    (q.receive = none ↔ q._msgs = []) ∧
    (q._msgs ≠ [] → ∃ v, q._msgs = [v] ∧ q.receive = some (v, MessageQueue.fresh)) ∧
    (MessageQueue.fresh : MessageQueue T).receive = none ∧
    ∀ v : T, ((MessageQueue.fresh : MessageQueue T).send v).receive
      = some (v, MessageQueue.fresh) := by
  refine ⟨MessageQueue.receive_eq_none_iff q, ?_, rfl, fun _ => rfl⟩
  intro hne
  have hlen := MessageQueue.exec_length (by simp [MessageQueue.fresh]) h
  obtain ⟨l⟩ := q
  match l, hne, hlen with
  | [v], _, _ => exact ⟨v, rfl, rfl⟩

/-- Witness for C3: the state after send 1, receive, send 7. -/
theorem C3_receive_contract_witness :
    ((⟨[7]⟩ : MessageQueue Nat).receive = none ↔ (⟨[7]⟩ : MessageQueue Nat)._msgs = []) ∧
    ((⟨[7]⟩ : MessageQueue Nat)._msgs ≠ [] →
      ∃ v, (⟨[7]⟩ : MessageQueue Nat)._msgs = [v] ∧
        (⟨[7]⟩ : MessageQueue Nat).receive = some (v, MessageQueue.fresh)) ∧
    (MessageQueue.fresh : MessageQueue Nat).receive = none ∧
    ∀ v : Nat, ((MessageQueue.fresh : MessageQueue Nat).send v).receive
      = some (v, MessageQueue.fresh) :=
  C3_receive_contract [.send 1, .receive, .send 7] ⟨[7]⟩ (by decide)

namespace SendThreads

variable {T : Type}

theorem getElem?_set_cases {α : Type} {l : List α} {i j : Nat} {a u t : α}
    (hi : l[i]? = some t) (h : (l.set i a)[j]? = some u) :
    (j = i ∧ u = a) ∨ (j ≠ i ∧ l[j]? = some u) := by
  rw [List.getElem?_set] at h
  by_cases hij : i = j
  · subst hij
    have hlt : i < l.length := by
      rcases List.getElem?_eq_some.mp hi with ⟨hlt, _⟩
      exact hlt
    simp [hlt] at h
    exact Or.inl ⟨rfl, h.symm⟩
  · simp [hij] at h
    exact Or.inr ⟨fun e => hij e.symm, h⟩

theorem mem_set_cases {α : Type} {l : List α} {i : Nat} {a u : α}
    (h : u ∈ l.set i a) : u = a ∨ u ∈ l := by
  rcases List.mem_or_eq_of_mem_set h with h | h
  · exact Or.inr h
  · exact Or.inl h

theorem init_inv (m0 vals : List T) : Inv vals (init m0 vals) := by
  refine ⟨?_, ?_, ?_, ?_, ?_, ?_⟩
  · intro t ht
    simp only [init, List.mem_map] at ht
    obtain ⟨v, hv, rfl⟩ := ht
    exact hv
  · intro i t ht hcs
    simp only [init, List.getElem?_map] at ht
    cases hv : vals[i]? with
    | none => simp [hv] at ht
    | some v =>
      simp only [hv, Option.map_some', Option.some.injEq] at ht
      subst ht
      simp [SendPc.inCS] at hcs
  · intro i h
    simp [init] at h
  · intro i t ht hpc
    simp only [init, List.getElem?_map] at ht
    cases hv : vals[i]? with
    | none => simp [hv] at ht
    | some v =>
      simp only [hv, Option.map_some', Option.some.injEq] at ht
      subst ht
      simp at hpc
  · intro i t ht hpc
    simp only [init, List.getElem?_map] at ht
    cases hv : vals[i]? with
    | none => simp [hv] at ht
    | some v =>
      simp only [hv, Option.map_some', Option.some.injEq] at ht
      subst ht
      simp at hpc
  · intro _ h
    obtain ⟨t, ht, hpc⟩ := h
    simp only [init, List.mem_map] at ht
    obtain ⟨v, _, rfl⟩ := ht
    simp at hpc

theorem step_inv {vals : List T} {s : SendThreads T} (h : Inv vals s) (i : Nat) :
    Inv vals (s.step i) := by
  unfold step
  cases hti : s.threads[i]? with
  | none => exact h
  | some t =>
    obtain ⟨pc, msg⟩ := t
    have hmem : msg ∈ vals :=
      h.msg_mem ⟨pc, msg⟩ (List.mem_iff_getElem?.mpr ⟨i, hti⟩)
    cases pc with
    | atLock =>
      cases hh : s.holder with
      | some j => simpa [hh] using h
      | none =>
        refine ⟨?_, ?_, ?_, ?_, ?_, ?_⟩
        · intro u hu
          rcases mem_set_cases hu with rfl | hu
          · exact hmem
          · exact h.msg_mem u hu
        · intro j u hj hcs
          rcases getElem?_set_cases hti hj with ⟨rfl, _⟩ | ⟨_, hj⟩
          · rfl
          · have := h.cs_holder j u hj hcs
            simp [hh] at this
        · intro j hj
          simp only [Option.some.injEq] at hj
          subst hj
          refine ⟨⟨.atClear, msg⟩, ?_, rfl⟩
          exact List.getElem?_set_self (List.getElem?_eq_some.mp hti).1
        · intro j u hj hpc
          rcases getElem?_set_cases hti hj with ⟨_, rfl⟩ | ⟨_, hj⟩
          · simp at hpc
          · have := h.cs_holder j u hj (by simp [hpc, SendPc.inCS])
            simp [hh] at this
        · intro j u hj hpc
          rcases getElem?_set_cases hti hj with ⟨_, rfl⟩ | ⟨_, hj⟩
          · simp at hpc
          · have := h.cs_holder j u hj (by rcases hpc with e | e <;> simp [e, SendPc.inCS])
            simp [hh] at this
        · intro hn
          simp at hn
    | atClear =>
      have hh : s.holder = some i := h.cs_holder i _ hti rfl
      refine ⟨?_, ?_, ?_, ?_, ?_, ?_⟩
      · intro u hu
        rcases mem_set_cases hu with rfl | hu
        · exact hmem
        · exact h.msg_mem u hu
      · intro j u hj hcs
        rcases getElem?_set_cases hti hj with ⟨rfl, _⟩ | ⟨_, hj⟩
        · exact hh
        · exact h.cs_holder j u hj hcs
      · intro j hj
        have hji : j = i := by
          have : s.holder = some j := hj
          rw [hh] at this
          exact (Option.some.inj this).symm
        subst hji
        refine ⟨⟨.atEmplace, msg⟩, ?_, rfl⟩
        exact List.getElem?_set_self (List.getElem?_eq_some.mp hti).1
      · intro j u hj hpc
        rfl
      · intro j u hj hpc
        rcases getElem?_set_cases hti hj with ⟨_, rfl⟩ | ⟨hne, hj⟩
        · simp at hpc
        · have := h.cs_holder j u hj (by rcases hpc with e | e <;> simp [e, SendPc.inCS])
          rw [hh] at this
          exact absurd (Option.some.inj this).symm hne
      · intro hn
        have : s.holder = none := hn
        rw [hh] at this
        exact absurd this (by simp)
    | atEmplace =>
      have hh : s.holder = some i := h.cs_holder i _ hti rfl
      have hnil : s._msgs = [] := h.emplace i _ hti rfl
      refine ⟨?_, ?_, ?_, ?_, ?_, ?_⟩
      · intro u hu
        rcases mem_set_cases hu with rfl | hu
        · exact hmem
        · exact h.msg_mem u hu
      · intro j u hj hcs
        rcases getElem?_set_cases hti hj with ⟨rfl, _⟩ | ⟨_, hj⟩
        · exact hh
        · exact h.cs_holder j u hj hcs
      · intro j hj
        have hji : j = i := by
          have : s.holder = some j := hj
          rw [hh] at this
          exact (Option.some.inj this).symm
        subst hji
        refine ⟨⟨.atNotify, msg⟩, ?_, rfl⟩
        exact List.getElem?_set_self (List.getElem?_eq_some.mp hti).1
      · intro j u hj hpc
        rcases getElem?_set_cases hti hj with ⟨_, rfl⟩ | ⟨hne, hj⟩
        · simp at hpc
        · have := h.cs_holder j u hj (by simp [hpc, SendPc.inCS])
          rw [hh] at this
          exact absurd (Option.some.inj this).symm hne
      · intro j u hj hpc
        rcases getElem?_set_cases hti hj with ⟨_, rfl⟩ | ⟨hne, hj⟩
        · simp [hnil]
        · have := h.cs_holder j u hj (by rcases hpc with e | e <;> simp [e, SendPc.inCS])
          rw [hh] at this
          exact absurd (Option.some.inj this).symm hne
      · intro hn
        have : s.holder = none := hn
        rw [hh] at this
        exact absurd this (by simp)
    | atNotify =>
      have hh : s.holder = some i := h.cs_holder i _ hti rfl
      have hst : s._msgs = [msg] := h.stored i _ hti (Or.inl rfl)
      refine ⟨?_, ?_, ?_, ?_, ?_, ?_⟩
      · intro u hu
        rcases mem_set_cases hu with rfl | hu
        · exact hmem
        · exact h.msg_mem u hu
      · intro j u hj hcs
        rcases getElem?_set_cases hti hj with ⟨rfl, _⟩ | ⟨_, hj⟩
        · exact hh
        · exact h.cs_holder j u hj hcs
      · intro j hj
        have hji : j = i := by
          have : s.holder = some j := hj
          rw [hh] at this
          exact (Option.some.inj this).symm
        subst hji
        refine ⟨⟨.atUnlock, msg⟩, ?_, rfl⟩
        exact List.getElem?_set_self (List.getElem?_eq_some.mp hti).1
      · intro j u hj hpc
        rcases getElem?_set_cases hti hj with ⟨_, rfl⟩ | ⟨hne, hj⟩
        · simp at hpc
        · have := h.cs_holder j u hj (by simp [hpc, SendPc.inCS])
          rw [hh] at this
          exact absurd (Option.some.inj this).symm hne
      · intro j u hj hpc
        rcases getElem?_set_cases hti hj with ⟨_, rfl⟩ | ⟨hne, hj⟩
        · exact hst
        · have := h.cs_holder j u hj (by rcases hpc with e | e <;> simp [e, SendPc.inCS])
          rw [hh] at this
          exact absurd (Option.some.inj this).symm hne
      · intro hn
        have : s.holder = none := hn
        rw [hh] at this
        exact absurd this (by simp)
    | atUnlock =>
      have hh : s.holder = some i := h.cs_holder i _ hti rfl
      have hst : s._msgs = [msg] := h.stored i _ hti (Or.inr rfl)
      have hother : ∀ (j : Nat) (u : SendThread T), j ≠ i → s.threads[j]? = some u →
          u.pc.inCS = true → False := by
        intro j u hne hj hcs
        have := h.cs_holder j u hj hcs
        rw [hh] at this
        exact absurd (Option.some.inj this).symm hne
      refine ⟨?_, ?_, ?_, ?_, ?_, ?_⟩
      · intro u hu
        rcases mem_set_cases hu with rfl | hu
        · exact hmem
        · exact h.msg_mem u hu
      · intro j u hj hcs
        rcases getElem?_set_cases hti hj with ⟨_, rfl⟩ | ⟨hne, hj⟩
        · simp [SendPc.inCS] at hcs
        · exact (hother j u hne hj hcs).elim
      · intro j hj
        simp at hj
      · intro j u hj hpc
        rcases getElem?_set_cases hti hj with ⟨_, rfl⟩ | ⟨hne, hj⟩
        · simp at hpc
        · exact (hother j u hne hj (by simp [hpc, SendPc.inCS])).elim
      · intro j u hj hpc
        rcases getElem?_set_cases hti hj with ⟨_, rfl⟩ | ⟨hne, hj⟩
        · simp at hpc
        · exact (hother j u hne hj
            (by rcases hpc with e | e <;> simp [e, SendPc.inCS])).elim
      · intro _ _
        exact ⟨msg, hmem, hst⟩
    | done => exact h

theorem run_inv {vals : List T} (sched : List Nat) {s : SendThreads T} (h : Inv vals s) :
    Inv vals (s.run sched) := by
  induction sched generalizing s with
  | nil => exact h
  | cons i sched ih => exact ih (step_inv h i)

theorem run_length (sched : List Nat) (s : SendThreads T) :
    (s.run sched).threads.length = s.threads.length := by
  induction sched generalizing s with
  | nil => rfl
  | cons i sched ih =>
    rw [run, ih]
    unfold step
    cases hti : s.threads[i]? with
    | none => rfl
    | some t =>
      obtain ⟨pc, msg⟩ := t
      cases pc <;> simp
      cases s.holder <;> simp

end SendThreads

/-! ## Claim on concurrent sends -/

/-- C7: concurrent sends do not corrupt the buffer. For every N ≥ 1 producer
threads, each running one `send` on the same channel, and every interleaving of
their statements under the mutex, once all of them have returned a following
`receive` returns one of the N values sent (and leaves the container empty). -/
theorem C7_concurrent_sends {T : Type} (m0 vals : List T) (sched : List Nat)
    (hN : vals ≠ [])
    (hdone : ((SendThreads.init m0 vals).run sched).allDone = true) :
    ∃ v ∈ vals, (MessageQueue.mk ((SendThreads.init m0 vals).run sched)._msgs).receive
      = some (v, MessageQueue.fresh) := by
  have hinv := SendThreads.run_inv sched (SendThreads.init_inv m0 vals)
  have hall : ∀ t ∈ ((SendThreads.init m0 vals).run sched).threads, t.pc = .done := by
    simpa [SendThreads.allDone] using hdone
  have hfree : ((SendThreads.init m0 vals).run sched).holder = none := by
    cases hh : ((SendThreads.init m0 vals).run sched).holder with
    | none => rfl
    | some i =>
      obtain ⟨t, ht, hcs⟩ := hinv.holder_cs i hh
      have := hall t (List.mem_iff_getElem?.mpr ⟨i, ht⟩)
      simp [this, SendPc.inCS] at hcs
  have hlen : ((SendThreads.init m0 vals).run sched).threads.length = vals.length := by
    rw [SendThreads.run_length]
    simp [SendThreads.init]
  have hex : ∃ t ∈ ((SendThreads.init m0 vals).run sched).threads, t.pc = .done := by
    cases hth : ((SendThreads.init m0 vals).run sched).threads with
    | nil =>
      rw [hth] at hlen
      have : vals.length = 0 := by simpa using hlen.symm
      exact absurd (List.length_eq_zero.mp this) hN
    | cons t ts =>
      exact ⟨t, by simp, hall t (by simp [hth])⟩
  obtain ⟨v, hv, hm⟩ := hinv.free hfree hex
  exact ⟨v, hv, by rw [hm]; rfl⟩

/-- Witness for C7: three producers sending 10, 20, 30; the second thread takes
the mutex first, then the third, then the first, with steps of waiting threads
in between. -/
theorem C7_concurrent_sends_witness :
    ([10, 20, 30] : List Nat) ≠ [] ∧
    ((SendThreads.init [5] [10, 20, 30]).run
      [1, 0, 1, 2, 1, 1, 0, 1, 2, 2, 0, 2, 2, 2, 0, 0, 0, 0, 0]).allDone = true ∧
    ∃ v ∈ ([10, 20, 30] : List Nat),
      (MessageQueue.mk ((SendThreads.init [5] [10, 20, 30]).run
        [1, 0, 1, 2, 1, 1, 0, 1, 2, 2, 0, 2, 2, 2, 0, 0, 0, 0, 0])._msgs).receive
        = some (v, MessageQueue.fresh) :=
  ⟨by decide, by decide, C7_concurrent_sends [5] [10, 20, 30]
    [1, 0, 1, 2, 1, 1, 0, 1, 2, 2, 0, 2, 2, 2, 0, 0, 0, 0, 0] (by decide) (by decide)⟩

/-! ## waitForGreen -/

theorem waitForGreen_deliver_returned (d : Nat → Option TrafficLightPhase) :
    ∀ (fuel s n : Nat), waitForGreen (deliver d) fuel s = .returned n ↔
      (s < n ∧ n ≤ s + fuel ∧ d (n - 1) = some TrafficLightPhase.green ∧
        ∀ i, s ≤ i → i < n - 1 → ∃ p, d i = some p ∧ p ≠ TrafficLightPhase.green) := by
  intro fuel
  induction fuel with
  | zero =>
    intro s n
    simp only [waitForGreen, Nat.add_zero]
    constructor
    · intro h
      cases h
    · rintro ⟨h1, h2, _⟩
      omega
  | succ fuel ih =>
    intro s n
    cases hd : d s with
    | none =>
      have hr : waitForGreen (deliver d) (fuel + 1) s = .blocked s := by
        simp [waitForGreen, deliver, hd]
      rw [hr]
      constructor
      · intro h
        cases h
      · rintro ⟨h1, _, h3, h4⟩
        by_cases hn : n - 1 = s
        · rw [hn, hd] at h3
          cases h3
        · obtain ⟨p, hp, _⟩ := h4 s (le_refl s) (by omega)
          rw [hd] at hp
          cases hp
    | some p =>
      by_cases hp : p = TrafficLightPhase.green
      · have hr : waitForGreen (deliver d) (fuel + 1) s = .returned (s + 1) := by
          simp [waitForGreen, deliver, hd, hp]
        rw [hr]
        constructor
        · intro h
          have hn : s + 1 = n := by
            cases h
            rfl
          subst hn
          refine ⟨by omega, by omega, ?_, ?_⟩
          · simpa [hp] using hd
          · intro i h1 h2
            omega
        · rintro ⟨h1, _, _, h4⟩
          by_cases hn : n - 1 = s
          · have : n = s + 1 := by omega
            rw [this]
          · obtain ⟨q, hq, hqne⟩ := h4 s (le_refl s) (by omega)
            rw [hd] at hq
            have : p = q := Option.some.inj hq
            exact absurd (this ▸ hp) hqne
      · have hr : waitForGreen (deliver d) (fuel + 1) s
            = waitForGreen (deliver d) fuel (s + 1) := by
          simp [waitForGreen, deliver, hd, hp]
        rw [hr, ih (s + 1) n]
        constructor
        · rintro ⟨h1, h2, h3, h4⟩
          refine ⟨by omega, by omega, h3, ?_⟩
          intro i hi1 hi2
          by_cases hi : i = s
          · subst hi
            exact ⟨p, hd, hp⟩
          · exact h4 i (by omega) hi2
        · rintro ⟨h1, h2, h3, h4⟩
          have hne : n - 1 ≠ s := by
            intro e
            rw [e, hd] at h3
            exact hp (Option.some.inj h3)
          exact ⟨by omega, by omega, h3, fun i hi1 hi2 => h4 i (by omega) hi2⟩

theorem waitForGreen_receive_not_returned :
    ∀ (fuel : Nat) (q q' : MessageQueue TrafficLightPhase),
      (∀ m ∈ q._msgs, m ≠ TrafficLightPhase.green) →
      waitForGreen MessageQueue.receive fuel q ≠ .returned q' := by
  intro fuel
  induction fuel with
  | zero =>
    intro q q' _ h
    cases h
  | succ fuel ih =>
    intro q q' hq h
    cases hr : q.receive with
    | none =>
      simp [waitForGreen, hr] at h
    | some r =>
      obtain ⟨msg, q1⟩ := r
      obtain ⟨l⟩ := q
      have hl : l ≠ [] := by
        intro e
        subst e
        simp [MessageQueue.receive] at hr
      have hlast : l.getLast? = some (l.getLast hl) := List.getLast?_eq_getLast _ _
      have hr2 : msg = l.getLast hl ∧ q1 = ⟨l.dropLast⟩ := by
        simp only [MessageQueue.receive, Deque.back, Deque.empty, Deque.pop_back, hlast] at hr
        simp [hl] at hr
        exact ⟨hr.1.symm, hr.2.symm⟩
      have hmsg : msg ≠ TrafficLightPhase.green := by
        rw [hr2.1]
        exact hq _ (List.getLast_mem hl)
      have hq1 : ∀ m ∈ q1._msgs, m ≠ TrafficLightPhase.green := by
        rw [hr2.2]
        intro m hm
        exact hq m (List.dropLast_subset l hm)
      simp only [waitForGreen, hr, hmsg, if_false] at h
      exact ih q1 q' hq1 h

/-- C4: `waitForGreen`, run against a sequence `d` of values delivered by
successive receives, returns after consuming `n` values exactly when the
`n`-th value is the first green one (all `n - 1` values before it were
delivered, are not green and are discarded) and the run is long enough to
reach it; in particular it returns once the first green is reached, and when
the sequence contains no green it does not return, however long it runs. -/
theorem C4_waitForGreen (d : Nat → Option TrafficLightPhase) :
    (∀ fuel n : Nat, waitForGreen (deliver d) fuel 0 = .returned n ↔
      ∃ k, n = k + 1 ∧ k < fuel ∧ d k = some TrafficLightPhase.green ∧
        ∀ i, i < k → ∃ p, d i = some p ∧ p ≠ TrafficLightPhase.green) ∧
    ((∀ i, d i ≠ some TrafficLightPhase.green) →
      ∀ fuel n : Nat, waitForGreen (deliver d) fuel 0 ≠ .returned n) := by
  have key : ∀ fuel n : Nat, waitForGreen (deliver d) fuel 0 = .returned n ↔
      ∃ k, n = k + 1 ∧ k < fuel ∧ d k = some TrafficLightPhase.green ∧
        ∀ i, i < k → ∃ p, d i = some p ∧ p ≠ TrafficLightPhase.green := by
    intro fuel n
    rw [waitForGreen_deliver_returned d fuel 0 n]
    constructor
    · rintro ⟨h1, h2, h3, h4⟩
      refine ⟨n - 1, by omega, by omega, h3, fun i hi => h4 i (Nat.zero_le i) hi⟩
    · rintro ⟨k, rfl, h2, h3, h4⟩
      refine ⟨by omega, by omega, by simpa using h3, fun i _ hi => h4 i (by simpa using hi)⟩
  refine ⟨key, ?_⟩
  intro hno fuel n h
  obtain ⟨k, _, _, hk, _⟩ := (key fuel n).mp h
  exact hno k hk

/-! ## Rounding to binary32 -/

theorem roundHalfEven_sub_le (x : ℚ) : |(roundHalfEven x : ℚ) - x| ≤ 1 / 2 := by
  have hf := Int.floor_le x
  have hlt := Int.lt_floor_add_one x
  unfold roundHalfEven
  simp only
  rw [abs_le]
  split_ifs <;> push_cast <;> constructor <;> linarith

theorem roundHalfEven_eq {x : ℚ} {n : ℤ} (h : |x - n| < 1 / 2) : roundHalfEven x = n := by
  have h1 := roundHalfEven_sub_le x
  rw [abs_le] at h1
  rw [abs_lt] at h
  have h2 : ((roundHalfEven x : ℤ) : ℚ) < (n : ℚ) + 1 := by linarith [h1.1, h1.2, h.1, h.2]
  have h3 : (n : ℚ) < (roundHalfEven x : ℚ) + 1 := by linarith [h1.1, h1.2, h.1, h.2]
  have h2' : roundHalfEven x < n + 1 := by exact_mod_cast h2
  have h3' : n < roundHalfEven x + 1 := by exact_mod_cast h3
  omega

theorem roundHalfEven_intCast (n : ℤ) : roundHalfEven (n : ℚ) = n :=
  roundHalfEven_eq (by simp)

theorem roundHalfEven_mono {x y : ℚ} (h : x ≤ y) : roundHalfEven x ≤ roundHalfEven y := by
  by_contra hcon
  have hlt : roundHalfEven y + 1 ≤ roundHalfEven x := by omega
  have hq : ((roundHalfEven y : ℤ) : ℚ) + 1 ≤ (roundHalfEven x : ℚ) := by exact_mod_cast hlt
  have hx := roundHalfEven_sub_le x
  have hy := roundHalfEven_sub_le y
  rw [abs_le] at hx hy
  have hxy : x = y := by linarith [hx.1, hx.2, hy.1, hy.2]
  subst hxy
  omega

theorem round32_of_binade {x : ℚ} {e : ℤ} (h1 : (2 : ℚ) ^ e ≤ |x|) (h2 : |x| < (2 : ℚ) ^ (e + 1)) :
    round32 x = (roundHalfEven (x / (2 : ℚ) ^ (e - 23)) : ℚ) * (2 : ℚ) ^ (e - 23) := by
  have hpos : 0 < |x| := lt_of_lt_of_le (by positivity) h1
  have hx : x ≠ 0 := abs_pos.mp hpos
  have hle : e ≤ Int.log 2 |x| := by
    rw [← Int.zpow_le_iff_le_log (by norm_num) hpos]
    simpa using h1
  have hlt : Int.log 2 |x| < e + 1 := by
    rw [← Int.lt_zpow_iff_log_lt (by norm_num) hpos]
    simpa using h2
  have he : Int.log 2 |x| = e := by omega
  simp [round32, hx, he]

theorem round32_eq {x : ℚ} (e n : ℤ) (h1 : (2 : ℚ) ^ e ≤ |x|) (h2 : |x| < (2 : ℚ) ^ (e + 1))
    (h3 : |x / (2 : ℚ) ^ (e - 23) - n| < 1 / 2) :
    round32 x = (n : ℚ) * (2 : ℚ) ^ (e - 23) := by
  rw [round32_of_binade h1 h2, roundHalfEven_eq h3]

theorem round32_pos_bounds {x : ℚ} (hx : 0 < x) :
    (2 : ℚ) ^ (Int.log 2 x) ≤ round32 x ∧ round32 x ≤ (2 : ℚ) ^ (Int.log 2 x + 1) := by
  have h1 : (2 : ℚ) ^ (Int.log 2 x) ≤ x := by
    simpa using Int.zpow_log_le_self (b := 2) (by norm_num) hx
  have h2 : x < (2 : ℚ) ^ (Int.log 2 x + 1) := by
    simpa using Int.lt_zpow_succ_log_self (b := 2) (by norm_num) x
  have hr := round32_of_binade (x := x) (e := Int.log 2 x)
    (by rwa [abs_of_pos hx]) (by rwa [abs_of_pos hx])
  have hu : (0 : ℚ) < (2 : ℚ) ^ (Int.log 2 x - 23) := by positivity
  have e1 : (2 : ℚ) ^ (Int.log 2 x) = ((2 ^ 23 : ℤ) : ℚ) * (2 : ℚ) ^ (Int.log 2 x - 23) := by
    rw [zpow_sub₀ (by norm_num)]
    push_cast
    field_simp
    norm_num
    ring
  have e2 : (2 : ℚ) ^ (Int.log 2 x + 1) = ((2 ^ 24 : ℤ) : ℚ) * (2 : ℚ) ^ (Int.log 2 x - 23) := by
    rw [zpow_sub₀ (by norm_num), zpow_add₀ (by norm_num)]
    push_cast
    field_simp
    norm_num
    ring
  have hlo : (2 ^ 23 : ℤ) ≤ roundHalfEven (x / (2 : ℚ) ^ (Int.log 2 x - 23)) := by
    rw [← roundHalfEven_intCast (2 ^ 23)]
    apply roundHalfEven_mono
    rw [le_div_iff₀ hu, ← e1]
    exact h1
  have hhi : roundHalfEven (x / (2 : ℚ) ^ (Int.log 2 x - 23)) ≤ (2 ^ 24 : ℤ) := by
    rw [← roundHalfEven_intCast (2 ^ 24)]
    apply roundHalfEven_mono
    rw [div_le_iff₀ hu, ← e2]
    exact h2.le
  rw [hr]
  constructor
  · rw [e1]
    exact mul_le_mul_of_nonneg_right (by exact_mod_cast hlo) hu.le
  · rw [e2]
    exact mul_le_mul_of_nonneg_right (by exact_mod_cast hhi) hu.le

theorem round32_nonneg {x : ℚ} (hx : 0 ≤ x) : 0 ≤ round32 x := by
  rcases hx.eq_or_lt with h | h
  · subst h
    simp [round32]
  · exact le_trans (by positivity) (round32_pos_bounds h).1

theorem round32_nonpos {x : ℚ} (hx : x ≤ 0) : round32 x ≤ 0 := by
  unfold round32
  split_ifs with h0
  · exact le_refl _
  · simp only
    have hu : (0 : ℚ) < (2 : ℚ) ^ (Int.log 2 |x| - 23) := by positivity
    have : roundHalfEven (x / (2 : ℚ) ^ (Int.log 2 |x| - 23)) ≤ 0 := by
      have h := roundHalfEven_mono (x := x / (2 : ℚ) ^ (Int.log 2 |x| - 23)) (y := ((0 : ℤ) : ℚ))
        (by simpa using div_nonpos_of_nonpos_of_nonneg hx hu.le)
      rwa [roundHalfEven_intCast] at h
    exact mul_nonpos_of_nonpos_of_nonneg (by exact_mod_cast this) hu.le

theorem round32_mono {x y : ℚ} (hx : 0 ≤ x) (h : x ≤ y) : round32 x ≤ round32 y := by
  rcases hx.eq_or_lt with h0 | hpos
  · subst h0
    have : round32 0 = 0 := by simp [round32]
    rw [this]
    exact round32_nonneg h
  · have hy : 0 < y := lt_of_lt_of_le hpos h
    have hlog := Int.log_mono_right (b := 2) hpos h
    rcases hlog.eq_or_lt with he | hlt
    · have h1 := round32_of_binade (x := x) (e := Int.log 2 x)
        (by simpa [abs_of_pos hpos] using Int.zpow_log_le_self (b := 2) (by norm_num) hpos)
        (by simpa [abs_of_pos hpos] using Int.lt_zpow_succ_log_self (b := 2) (by norm_num) x)
      have h2 := round32_of_binade (x := y) (e := Int.log 2 y)
        (by simpa [abs_of_pos hy] using Int.zpow_log_le_self (b := 2) (by norm_num) hy)
        (by simpa [abs_of_pos hy] using Int.lt_zpow_succ_log_self (b := 2) (by norm_num) y)
      rw [h1, h2, he]
      have hu : (0 : ℚ) < (2 : ℚ) ^ (Int.log 2 y - 23) := by positivity
      apply mul_le_mul_of_nonneg_right _ hu.le
      have := roundHalfEven_mono (div_le_div_of_nonneg_right h hu.le)
      exact_mod_cast this
    · have hle : Int.log 2 x + 1 ≤ Int.log 2 y := hlt
      calc round32 x ≤ (2 : ℚ) ^ (Int.log 2 x + 1) := (round32_pos_bounds hpos).2
        _ ≤ (2 : ℚ) ^ (Int.log 2 y) := zpow_le_zpow_right₀ (by norm_num) hle
        _ ≤ round32 y := (round32_pos_bounds hy).1

theorem round32_4000 : round32 (4000 : ℚ) = 4000 := by
  rw [round32_eq (11) (16384000) (by norm_num [abs_of_pos]) (by norm_num [abs_of_pos]) (by norm_num [abs_lt])]
  norm_num

theorem round32_6000 : round32 (6000 : ℚ) = 6000 := by
  rw [round32_eq (12) (12288000) (by norm_num [abs_of_pos]) (by norm_num [abs_of_pos]) (by norm_num [abs_lt])]
  norm_num

theorem elapsedMillis32_5s : elapsedMillis32 5000000000 = 5000 := by
  have h1 : round32 (5000000000 : ℚ) = 5000000000 := by
    rw [round32_eq (32) (9765625) (by norm_num [abs_of_pos]) (by norm_num [abs_of_pos]) (by norm_num [abs_lt])]
    norm_num
  have h2 : round32 (5000000000 / 1000000000 : ℚ) = 5 := by
    rw [round32_eq (2) (10485760) (by norm_num [abs_of_pos]) (by norm_num [abs_of_pos]) (by norm_num [abs_lt])]
    norm_num
  have h3 : round32 (5 * 1000 : ℚ) = 5000 := by
    rw [round32_eq (12) (10240000) (by norm_num [abs_of_pos]) (by norm_num [abs_of_pos]) (by norm_num [abs_lt])]
    norm_num
  simp only [elapsedMillis32, Int.cast_ofNat]
  rw [h1, h2, h3]

theorem toggleDue_5s : toggleDue 5000000000 4000 = true := by
  simp only [toggleDue, Int.cast_ofNat, elapsedMillis32_5s, round32_4000]
  norm_num

theorem elapsedMillis32_4s : elapsedMillis32 4000000000 = 4000 := by
  have h1 : round32 (4000000000 : ℚ) = 4000000000 := by
    rw [round32_eq (31) (15625000) (by norm_num [abs_of_pos]) (by norm_num [abs_of_pos]) (by norm_num [abs_lt])]
    norm_num
  have h2 : round32 (4000000000 / 1000000000 : ℚ) = 4 := by
    rw [round32_eq (2) (8388608) (by norm_num [abs_of_pos]) (by norm_num [abs_of_pos]) (by norm_num [abs_lt])]
    norm_num
  have h3 : round32 (4 * 1000 : ℚ) = 4000 := by
    rw [round32_eq (11) (16384000) (by norm_num [abs_of_pos]) (by norm_num [abs_of_pos]) (by norm_num [abs_lt])]
    norm_num
  simp only [elapsedMillis32, Int.cast_ofNat]
  rw [h1, h2, h3]

theorem elapsedMillis32_3s : elapsedMillis32 3000000000 = 3000 := by
  have h1 : round32 (3000000000 : ℚ) = 3000000000 := by
    rw [round32_eq (31) (11718750) (by norm_num [abs_of_pos]) (by norm_num [abs_of_pos]) (by norm_num [abs_lt])]
    norm_num
  have h2 : round32 (3000000000 / 1000000000 : ℚ) = 3 := by
    rw [round32_eq (1) (12582912) (by norm_num [abs_of_pos]) (by norm_num [abs_of_pos]) (by norm_num [abs_lt])]
    norm_num
  have h3 : round32 (3 * 1000 : ℚ) = 3000 := by
    rw [round32_eq (11) (12288000) (by norm_num [abs_of_pos]) (by norm_num [abs_of_pos]) (by norm_num [abs_lt])]
    norm_num
  simp only [elapsedMillis32, Int.cast_ofNat]
  rw [h1, h2, h3]

theorem toggleDue_3s : toggleDue 3000000000 4000 = false := by
  simp only [toggleDue, Int.cast_ofNat, elapsedMillis32_3s, round32_4000]
  norm_num

theorem elapsedMillis32_6s : elapsedMillis32 6000000000 = 6000 := by
  have h1 : round32 (6000000000 : ℚ) = 6000000000 := by
    rw [round32_eq (32) (11718750) (by norm_num [abs_of_pos]) (by norm_num [abs_of_pos]) (by norm_num [abs_lt])]
    norm_num
  have h2 : round32 (6000000000 / 1000000000 : ℚ) = 6 := by
    rw [round32_eq (2) (12582912) (by norm_num [abs_of_pos]) (by norm_num [abs_of_pos]) (by norm_num [abs_lt])]
    norm_num
  have h3 : round32 (6 * 1000 : ℚ) = 6000 := by
    rw [round32_eq (12) (12288000) (by norm_num [abs_of_pos]) (by norm_num [abs_of_pos]) (by norm_num [abs_lt])]
    norm_num
  simp only [elapsedMillis32, Int.cast_ofNat]
  rw [h1, h2, h3]

theorem toggleDue_6s : toggleDue 6000000000 4000 = true := by
  simp only [toggleDue, Int.cast_ofNat, elapsedMillis32_6s, round32_4000]
  norm_num

theorem elapsedMillis32_late200 : elapsedMillis32 6000000200 = 6000 := by
  have h1 : round32 (6000000200 : ℚ) = 6000000000 := by
    rw [round32_eq (32) (11718750) (by norm_num [abs_of_pos]) (by norm_num [abs_of_pos]) (by norm_num [abs_lt])]
    norm_num
  have h2 : round32 (6000000000 / 1000000000 : ℚ) = 6 := by
    rw [round32_eq (2) (12582912) (by norm_num [abs_of_pos]) (by norm_num [abs_of_pos]) (by norm_num [abs_lt])]
    norm_num
  have h3 : round32 (6 * 1000 : ℚ) = 6000 := by
    rw [round32_eq (12) (12288000) (by norm_num [abs_of_pos]) (by norm_num [abs_of_pos]) (by norm_num [abs_lt])]
    norm_num
  simp only [elapsedMillis32, Int.cast_ofNat]
  rw [h1, h2, h3]

theorem toggleDue_late200 : toggleDue 6000000200 6000 = false := by
  simp only [toggleDue, Int.cast_ofNat, elapsedMillis32_late200, round32_6000]
  norm_num

theorem elapsedMillis32_late1000 : elapsedMillis32 6000001000 = (6144001 / 1024) := by
  have h1 : round32 (6000001000 : ℚ) = 6000001024 := by
    rw [round32_eq (32) (11718752) (by norm_num [abs_of_pos]) (by norm_num [abs_of_pos]) (by norm_num [abs_lt])]
    norm_num
  have h2 : round32 (6000001024 / 1000000000 : ℚ) = (6291457 / 1048576) := by
    rw [round32_eq (2) (12582914) (by norm_num [abs_of_pos]) (by norm_num [abs_of_pos]) (by norm_num [abs_lt])]
    norm_num
  have h3 : round32 ((6291457 / 1048576) * 1000 : ℚ) = (6144001 / 1024) := by
    rw [round32_eq (12) (12288002) (by norm_num [abs_of_pos]) (by norm_num [abs_of_pos]) (by norm_num [abs_lt])]
    norm_num
  simp only [elapsedMillis32, Int.cast_ofNat]
  rw [h1, h2, h3]

theorem toggleDue_late1000 : toggleDue 6000001000 6000 = true := by
  simp only [toggleDue, Int.cast_ofNat, elapsedMillis32_late1000, round32_6000]
  norm_num

theorem elapsedMillis32_late257 : elapsedMillis32 6000000257 = (12288001 / 2048) := by
  have h1 : round32 (6000000257 : ℚ) = 6000000512 := by
    rw [round32_eq (32) (11718751) (by norm_num [abs_of_pos]) (by norm_num [abs_of_pos]) (by norm_num [abs_lt])]
    norm_num
  have h2 : round32 (6000000512 / 1000000000 : ℚ) = (12582913 / 2097152) := by
    rw [round32_eq (2) (12582913) (by norm_num [abs_of_pos]) (by norm_num [abs_of_pos]) (by norm_num [abs_lt])]
    norm_num
  have h3 : round32 ((12582913 / 2097152) * 1000 : ℚ) = (12288001 / 2048) := by
    rw [round32_eq (12) (12288001) (by norm_num [abs_of_pos]) (by norm_num [abs_of_pos]) (by norm_num [abs_lt])]
    norm_num
  simp only [elapsedMillis32, Int.cast_ofNat]
  rw [h1, h2, h3]

theorem toggleDue_late257 : toggleDue 6000000257 6000 = true := by
  simp only [toggleDue, Int.cast_ofNat, elapsedMillis32_late257, round32_6000]
  norm_num

theorem elapsedMillis32_mono {a b : Int} (ha : 0 ≤ a) (h : a ≤ b) :
    elapsedMillis32 a ≤ elapsedMillis32 b := by
  have ha' : (0 : ℚ) ≤ (a : ℚ) := by exact_mod_cast ha
  have hab : (a : ℚ) ≤ (b : ℚ) := by exact_mod_cast h
  have h1 : round32 (a : ℚ) ≤ round32 (b : ℚ) := round32_mono ha' hab
  have h1n : 0 ≤ round32 (a : ℚ) := round32_nonneg ha'
  have h2 : round32 (round32 (a : ℚ) / 1000000000) ≤ round32 (round32 (b : ℚ) / 1000000000) :=
    round32_mono (div_nonneg h1n (by norm_num)) (div_le_div_of_nonneg_right h1 (by norm_num))
  have h2n : 0 ≤ round32 (round32 (a : ℚ) / 1000000000) :=
    round32_nonneg (div_nonneg h1n (by norm_num))
  exact round32_mono (mul_nonneg h2n (by norm_num))
    (mul_le_mul_of_nonneg_right h2 (by norm_num))

theorem elapsedMillis32_nonpos {a : Int} (ha : a ≤ 0) : elapsedMillis32 a ≤ 0 := by
  have ha' : (a : ℚ) ≤ 0 := by exact_mod_cast ha
  have h1 : round32 (a : ℚ) ≤ 0 := round32_nonpos ha'
  have h2 : round32 (round32 (a : ℚ) / 1000000000) ≤ 0 :=
    round32_nonpos (div_nonpos_of_nonpos_of_nonneg h1 (by norm_num))
  exact round32_nonpos (mul_nonpos_of_nonpos_of_nonneg h2 (by norm_num))

theorem toggleDue_iff (e d : Int) :
    toggleDue e d = true ↔ elapsedMillis32 e > round32 (d : ℚ) := by
  simp [toggleDue]

theorem toggleDue_false_iff (e d : Int) :
    toggleDue e d = false ↔ elapsedMillis32 e ≤ round32 (d : ℚ) := by
  simp [toggleDue]

/-- No toggle is due up to 4000 ms after the start when the duration is at
least 4000. -/
theorem toggleDue_early {e d : Int} (he : e ≤ 4000000000) (hd : 4000 ≤ d) :
    toggleDue e d = false := by
  rw [toggleDue_false_iff]
  have hd' : round32 (4000 : ℚ) ≤ round32 (d : ℚ) :=
    round32_mono (by norm_num) (by exact_mod_cast hd)
  rw [round32_4000] at hd'
  have hE : elapsedMillis32 e ≤ 4000 := by
    by_cases h0 : 0 ≤ e
    · have := elapsedMillis32_mono h0 he
      rwa [elapsedMillis32_4s] at this
    · have := elapsedMillis32_nonpos (a := e) (by omega)
      linarith
  linarith

/-- A toggle is due from 6000 ms and 257 ns after the start when the duration
is at most 6000. -/
theorem toggleDue_late {e d : Int} (he : 6000000257 ≤ e) (hd : d ≤ 6000) :
    toggleDue e d = true := by
  rw [toggleDue_iff]
  have hd' : round32 (d : ℚ) ≤ 6000 := by
    by_cases h0 : 0 ≤ d
    · have := round32_mono (x := (d : ℚ)) (y := 6000) (by exact_mod_cast h0) (by exact_mod_cast hd)
      rwa [round32_6000] at this
    · have := round32_nonpos (x := (d : ℚ)) (by exact_mod_cast (show d ≤ 0 by omega))
      linarith
  have hE := elapsedMillis32_mono (a := 6000000257) (b := e) (by norm_num) he
  rw [elapsedMillis32_late257] at hE
  have : (6000 : ℚ) < 12288001 / 2048 := by norm_num
  linarith

/-! ## cycleThroughPhases -/

theorem iteration_due {clock distr : Nat → Int} {s : CycleState}
    (h : toggleDue (clock s.nowCalls - s.start) s.cycle_duration = true) :
    iteration clock distr s =
      { light := ⟨if s.light._currentPhase = TrafficLightPhase.red then TrafficLightPhase.green
                  else TrafficLightPhase.red,
                  s.light._queue.send
                    (if s.light._currentPhase = TrafficLightPhase.red then TrafficLightPhase.green
                     else TrafficLightPhase.red)⟩
        cycle_duration := distr s.distrCalls
        start := clock (s.nowCalls + 1)
        nowCalls := s.nowCalls + 2
        distrCalls := s.distrCalls + 1
        sent := s.sent ++
          [if s.light._currentPhase = TrafficLightPhase.red then TrafficLightPhase.green
           else TrafficLightPhase.red] } := by
  simp [iteration, h]

theorem iteration_not_due {clock distr : Nat → Int} {s : CycleState}
    (h : toggleDue (clock s.nowCalls - s.start) s.cycle_duration = false) :
    iteration clock distr s = { s with nowCalls := s.nowCalls + 1 } := by
  simp [iteration, h]

/-- The values sent so far alternate, starting with the toggled initial phase,
and the current phase is determined by how many values were sent. -/
theorem sent_alternates (clock distr : Nat → Int) (light : TrafficLight) (n : Nat) :
    (∀ (k : Nat) (p : TrafficLightPhase),
      (cycleThroughPhases clock distr light n).sent[k]? = some p →
      p = if k % 2 = 0 then
            (if light._currentPhase = TrafficLightPhase.red then TrafficLightPhase.green
             else TrafficLightPhase.red)
          else light._currentPhase) ∧
    (cycleThroughPhases clock distr light n).light._currentPhase =
      if (cycleThroughPhases clock distr light n).sent.length % 2 = 0 then light._currentPhase
      else (if light._currentPhase = TrafficLightPhase.red then TrafficLightPhase.green
            else TrafficLightPhase.red) := by
  induction n with
  | zero => simp [cycleThroughPhases, cycleStart]
  | succ n ih =>
    obtain ⟨ih1, ih2⟩ := ih
    simp only [cycleThroughPhases]
    cases hg : toggleDue
        (clock (cycleThroughPhases clock distr light n).nowCalls
          - (cycleThroughPhases clock distr light n).start)
        (cycleThroughPhases clock distr light n).cycle_duration with
    | false =>
      simp only [iteration_not_due hg]
      exact ⟨ih1, ih2⟩
    | true =>
      simp only [iteration_due hg, List.length_append, List.length_singleton]
      constructor
      · intro k p hk
        rw [List.getElem?_append] at hk
        by_cases hlt : k < (cycleThroughPhases clock distr light n).sent.length
        · rw [if_pos hlt] at hk
          exact ih1 k p hk
        · rw [if_neg hlt] at hk
          have hk0 : k - (cycleThroughPhases clock distr light n).sent.length = 0 := by
            by_contra hne
            obtain ⟨m, hm⟩ := Nat.exists_eq_succ_of_ne_zero hne
            rw [hm] at hk
            simp at hk
          have hkl : k = (cycleThroughPhases clock distr light n).sent.length := by omega
          rw [hk0] at hk
          simp only [List.getElem?_cons_zero, Option.some.injEq] at hk
          rw [← hk, ih2, hkl]
          cases light._currentPhase <;>
            by_cases hpar : (cycleThroughPhases clock distr light n).sent.length % 2 = 0 <;>
            simp [hpar]
      · rw [ih2]
        have hmod : ((cycleThroughPhases clock distr light n).sent.length + 1) % 2 = 0 ↔
            ¬ (cycleThroughPhases clock distr light n).sent.length % 2 = 0 := by omega
        cases light._currentPhase <;>
          by_cases hpar : (cycleThroughPhases clock distr light n).sent.length % 2 = 0 <;>
          simp [hpar, hmod]

/-! ## Concrete runs of the loop -/

theorem run5s_0 :
    cycleThroughPhases clockEvery5s distrConst4000 TrafficLight.ctor 0
      = ⟨TrafficLight.ctor, 4000, 0, 1, 1, []⟩ := rfl

theorem run5s_1 :
    cycleThroughPhases clockEvery5s distrConst4000 TrafficLight.ctor 1
      = ⟨⟨.green, ⟨[.green]⟩⟩, 4000, 10000000000, 3, 2, [.green]⟩ := by
  show iteration clockEvery5s distrConst4000
    (cycleThroughPhases clockEvery5s distrConst4000 TrafficLight.ctor 0) = _
  rw [run5s_0, iteration_due (by exact toggleDue_5s)]
  rfl

theorem run5s_2 :
    cycleThroughPhases clockEvery5s distrConst4000 TrafficLight.ctor 2
      = ⟨⟨.red, ⟨[.red]⟩⟩, 4000, 20000000000, 5, 3, [.green, .red]⟩ := by
  show iteration clockEvery5s distrConst4000
    (cycleThroughPhases clockEvery5s distrConst4000 TrafficLight.ctor 1) = _
  rw [run5s_1, iteration_due (by exact toggleDue_5s)]
  rfl

theorem run5s_3 :
    cycleThroughPhases clockEvery5s distrConst4000 TrafficLight.ctor 3
      = ⟨⟨.green, ⟨[.green]⟩⟩, 4000, 30000000000, 7, 4, [.green, .red, .green]⟩ := by
  show iteration clockEvery5s distrConst4000
    (cycleThroughPhases clockEvery5s distrConst4000 TrafficLight.ctor 2) = _
  rw [run5s_2, iteration_due (by exact toggleDue_5s)]
  rfl

theorem run3s_0 :
    cycleThroughPhases clockEvery3s distrConst4000 TrafficLight.ctor 0
      = ⟨TrafficLight.ctor, 4000, 0, 1, 1, []⟩ := rfl

theorem run3s_1 :
    cycleThroughPhases clockEvery3s distrConst4000 TrafficLight.ctor 1
      = ⟨TrafficLight.ctor, 4000, 0, 2, 1, []⟩ := by
  show iteration clockEvery3s distrConst4000
    (cycleThroughPhases clockEvery3s distrConst4000 TrafficLight.ctor 0) = _
  rw [run3s_0, iteration_not_due (by exact toggleDue_3s)]

theorem run3s_2 :
    cycleThroughPhases clockEvery3s distrConst4000 TrafficLight.ctor 2
      = ⟨⟨.green, ⟨[.green]⟩⟩, 4000, 9000000000, 4, 2, [.green]⟩ := by
  show iteration clockEvery3s distrConst4000
    (cycleThroughPhases clockEvery3s distrConst4000 TrafficLight.ctor 1) = _
  rw [run3s_1, iteration_due (by exact toggleDue_6s)]
  rfl

theorem runLate_0 :
    cycleThroughPhases clockLate distrConst6000 TrafficLight.ctor 0
      = ⟨TrafficLight.ctor, 6000, 0, 1, 1, []⟩ := rfl

theorem runLate_1 :
    cycleThroughPhases clockLate distrConst6000 TrafficLight.ctor 1
      = ⟨TrafficLight.ctor, 6000, 0, 2, 1, []⟩ := by
  show iteration clockLate distrConst6000
    (cycleThroughPhases clockLate distrConst6000 TrafficLight.ctor 0) = _
  rw [runLate_0, iteration_not_due (by exact toggleDue_late200)]

theorem runLate_2 :
    cycleThroughPhases clockLate distrConst6000 TrafficLight.ctor 2
      = ⟨⟨.green, ⟨[.green]⟩⟩, 6000, 6000001000, 4, 2, [.green]⟩ := by
  show iteration clockLate distrConst6000
    (cycleThroughPhases clockLate distrConst6000 TrafficLight.ctor 1) = _
  rw [runLate_1, iteration_due (by exact toggleDue_late1000)]
  rfl

/-! ## Claims on the loop of the actor -/

/-- C5: strict alternation. In every run of `cycleThroughPhases` on an actor
(whatever its phase at the start, the clock and the draws), no two consecutive
values passed to `send` are equal, and each iteration either leaves
`_currentPhase` and the sent values as they are, or changes `_currentPhase`
from red to green or from green to red and sends the new phase. -/
theorem C5_strict_alternation (clock distr : Nat → Int) (light : TrafficLight) (n : Nat) :
    (∀ (k : Nat) (p q : TrafficLightPhase),
      (cycleThroughPhases clock distr light n).sent[k]? = some p →
      (cycleThroughPhases clock distr light n).sent[k + 1]? = some q → p ≠ q) ∧
    (((cycleThroughPhases clock distr light (n + 1)).light._currentPhase
        = (cycleThroughPhases clock distr light n).light._currentPhase ∧
      (cycleThroughPhases clock distr light (n + 1)).sent
        = (cycleThroughPhases clock distr light n).sent) ∨
     ((((cycleThroughPhases clock distr light n).light._currentPhase = TrafficLightPhase.red ∧
        (cycleThroughPhases clock distr light (n + 1)).light._currentPhase
          = TrafficLightPhase.green) ∨
       ((cycleThroughPhases clock distr light n).light._currentPhase = TrafficLightPhase.green ∧
        (cycleThroughPhases clock distr light (n + 1)).light._currentPhase
          = TrafficLightPhase.red)) ∧
      (cycleThroughPhases clock distr light (n + 1)).sent
        = (cycleThroughPhases clock distr light n).sent
            ++ [(cycleThroughPhases clock distr light (n + 1)).light._currentPhase])) := by
  constructor
  · intro k p q hp hq
    have h1 := (sent_alternates clock distr light n).1 k p hp
    have h2 := (sent_alternates clock distr light n).1 (k + 1) q hq
    rw [h1, h2]
    by_cases hk : k % 2 = 0
    · have hk1 : ¬ (k + 1) % 2 = 0 := by omega
      rw [if_pos hk, if_neg hk1]
      cases light._currentPhase <;> simp
    · have hk1 : (k + 1) % 2 = 0 := by omega
      rw [if_neg hk, if_pos hk1]
      cases light._currentPhase <;> simp
  · simp only [cycleThroughPhases]
    cases hg : toggleDue
        (clock (cycleThroughPhases clock distr light n).nowCalls
          - (cycleThroughPhases clock distr light n).start)
        (cycleThroughPhases clock distr light n).cycle_duration with
    | false =>
      rw [iteration_not_due hg]
      exact Or.inl ⟨rfl, rfl⟩
    | true =>
      rw [iteration_due hg]
      refine Or.inr ⟨?_, rfl⟩
      cases (cycleThroughPhases clock distr light n).light._currentPhase <;> simp

/-- C6, the claim as stated fails: with a clock that advances five seconds
between readings and draws of 4000, the values a freshly constructed traffic
light has sent after three iterations are not red, green, red. -/
theorem C6_counterexample :
    ¬ (∀ (k : Nat) (p : TrafficLightPhase), 1 ≤ k →
        (cycleThroughPhases clockEvery5s distrConst4000 TrafficLight.ctor 3).sent[k - 1]?
          = some p →
        p = if k % 2 = 1 then TrafficLightPhase.red else TrafficLightPhase.green) := by
  intro h
  have := h 1 TrafficLightPhase.green (by decide) (by rw [run5s_3]; rfl)
  simp at this

/-- C6, amended: for a freshly constructed traffic light (current phase red),
the `k`-th value sent by the loop (k = 1, 2, ...) is green when `k` is odd and
red when `k` is even: the sequence is green, red, green, red, ... -/
theorem C6_published_sequence (clock distr : Nat → Int) (n k : Nat) (p : TrafficLightPhase)
    (hk : 1 ≤ k)
    (hp : (cycleThroughPhases clock distr TrafficLight.ctor n).sent[k - 1]? = some p) :
    p = if k % 2 = 1 then TrafficLightPhase.green else TrafficLightPhase.red := by
  have h := (sent_alternates clock distr TrafficLight.ctor n).1 (k - 1) p hp
  rw [h]
  by_cases hpar : k % 2 = 1
  · have : (k - 1) % 2 = 0 := by omega
    simp [hpar, this, TrafficLight.ctor]
  · have : ¬ (k - 1) % 2 = 0 := by omega
    simp [hpar, this, TrafficLight.ctor]

/-- Witness for C6: the second value sent in a run of three toggles is red. -/
theorem C6_published_sequence_witness :
    1 ≤ 2 ∧
    (cycleThroughPhases clockEvery5s distrConst4000 TrafficLight.ctor 3).sent[2 - 1]?
      = some TrafficLightPhase.red ∧
    TrafficLightPhase.red = if 2 % 2 = 1 then TrafficLightPhase.green else TrafficLightPhase.red :=
  ⟨by decide, by rw [run5s_3]; rfl,
    C6_published_sequence clockEvery5s distrConst4000 3 2 TrafficLightPhase.red
      (by decide) (by rw [run5s_3]; rfl)⟩

/-- The reading of the clock before the one under test did not make the toggle
due, and the cycle duration is the latest draw. -/
theorem timing_inv (clock distr : Nat → Int) (light : TrafficLight)
    (hd : ∀ i, 4000 ≤ distr i ∧ distr i ≤ 6000) (n : Nat) :
    1 ≤ (cycleThroughPhases clock distr light n).nowCalls ∧
    4000 ≤ (cycleThroughPhases clock distr light n).cycle_duration ∧
    (cycleThroughPhases clock distr light n).cycle_duration ≤ 6000 ∧
    toggleDue
      (clock ((cycleThroughPhases clock distr light n).nowCalls - 1)
        - (cycleThroughPhases clock distr light n).start)
      (cycleThroughPhases clock distr light n).cycle_duration = false := by
  induction n with
  | zero =>
    have := hd 0
    simp only [cycleThroughPhases, cycleStart]
    refine ⟨le_refl _, this.1, this.2, ?_⟩
    exact toggleDue_early (by simp) this.1
  | succ n ih =>
    obtain ⟨h1, h2, h3, h4⟩ := ih
    simp only [cycleThroughPhases]
    cases hg : toggleDue
        (clock (cycleThroughPhases clock distr light n).nowCalls
          - (cycleThroughPhases clock distr light n).start)
        (cycleThroughPhases clock distr light n).cycle_duration with
    | false =>
      simp only [iteration_not_due hg]
      refine ⟨by simp, h2, h3, ?_⟩
      simp only [Nat.add_sub_cancel]
      exact hg
    | true =>
      simp only [iteration_due hg]
      have := hd (cycleThroughPhases clock distr light n).distrCalls
      refine ⟨by simp, this.1, this.2, ?_⟩
      exact toggleDue_early (by simp) this.1

theorem clockLate_mono (i : Nat) : clockLate i ≤ clockLate (i + 1) := by
  unfold clockLate
  rcases i with _ | _ | i
  · decide
  · decide
  · simp

/-- C9, the claim as stated fails: with every draw 6000 and the readings 0,
6000000200, 6000001000, 6000001000 (nanoseconds), the test fails at the second
reading, because 6000.0002 ms rounds to 6000 in `float`, and holds at the
third. The start timestamp is reset 6000001000 ns after the previous one, the
jitter is the 800 ns between the second reading and the reset, and
6000 ms + 800 ns is less than the interval. -/
theorem C9_counterexample :
    (∀ i, 4000 ≤ distrConst6000 i ∧ distrConst6000 i ≤ 6000) ∧
    (∀ i, clockLate i ≤ clockLate (i + 1)) ∧
    toggleDue
      (clockLate ((cycleThroughPhases clockLate distrConst6000 TrafficLight.ctor 1).nowCalls - 1)
        - (cycleThroughPhases clockLate distrConst6000 TrafficLight.ctor 1).start)
      (cycleThroughPhases clockLate distrConst6000 TrafficLight.ctor 1).cycle_duration = false ∧
    toggleDue
      (clockLate (cycleThroughPhases clockLate distrConst6000 TrafficLight.ctor 1).nowCalls
        - (cycleThroughPhases clockLate distrConst6000 TrafficLight.ctor 1).start)
      (cycleThroughPhases clockLate distrConst6000 TrafficLight.ctor 1).cycle_duration = true ∧
    ¬ ((cycleThroughPhases clockLate distrConst6000 TrafficLight.ctor 2).start
        - (cycleThroughPhases clockLate distrConst6000 TrafficLight.ctor 1).start
      ≤ 6000 * 1000000
        + ((cycleThroughPhases clockLate distrConst6000 TrafficLight.ctor 2).start
          - clockLate
              ((cycleThroughPhases clockLate distrConst6000 TrafficLight.ctor 1).nowCalls - 1))) := by
  rw [runLate_1, runLate_2]
  refine ⟨fun _ => by simp [distrConst6000], clockLate_mono, ?_, ?_, by decide⟩
  · exact toggleDue_late200
  · exact toggleDue_late1000

/-- C9, amended: toggle interval bounds. In every run of the loop in which
each drawn cycle duration lies in [4000, 6000] and the clock readings are
non-decreasing, at each iteration that toggles, the time from the previous
reset of the start timestamp to the new one is at least 4000 ms, and at most
6000 ms plus 256 ns (the rounding of the test in `float`) plus the time that
passed between the clock reading just before the triggering one, which did not
make the toggle due (it was either tested and found not due, or is the reading
that set the start timestamp), and the reading that resets the timestamp.
Times are in nanoseconds. -/
theorem C9_toggle_interval (clock distr : Nat → Int) (light : TrafficLight) (n : Nat)
    (hd : ∀ i, 4000 ≤ distr i ∧ distr i ≤ 6000)
    (hc : ∀ i, clock i ≤ clock (i + 1))
    (hdue : toggleDue
      (clock (cycleThroughPhases clock distr light n).nowCalls
        - (cycleThroughPhases clock distr light n).start)
      (cycleThroughPhases clock distr light n).cycle_duration = true) :
    (cycleThroughPhases clock distr light (n + 1)).start
      = clock ((cycleThroughPhases clock distr light n).nowCalls + 1) ∧
    1 ≤ (cycleThroughPhases clock distr light n).nowCalls ∧
    toggleDue
      (clock ((cycleThroughPhases clock distr light n).nowCalls - 1)
        - (cycleThroughPhases clock distr light n).start)
      (cycleThroughPhases clock distr light n).cycle_duration = false ∧
    4000 * 1000000 ≤ (cycleThroughPhases clock distr light (n + 1)).start
      - (cycleThroughPhases clock distr light n).start ∧
    (cycleThroughPhases clock distr light (n + 1)).start
      - (cycleThroughPhases clock distr light n).start
      ≤ 6000 * 1000000 + 256
        + ((cycleThroughPhases clock distr light (n + 1)).start
          - clock ((cycleThroughPhases clock distr light n).nowCalls - 1)) := by
  obtain ⟨h1, h2, h3, h4⟩ := timing_inv clock distr light hd n
  have hgt : 4000000000 < clock (cycleThroughPhases clock distr light n).nowCalls
      - (cycleThroughPhases clock distr light n).start := by
    by_contra hcon
    have := toggleDue_early (not_lt.mp hcon) h2
    rw [hdue] at this
    cases this
  have hprev : clock ((cycleThroughPhases clock distr light n).nowCalls - 1)
      - (cycleThroughPhases clock distr light n).start ≤ 6000000256 := by
    by_contra hcon
    have := toggleDue_late (e := clock ((cycleThroughPhases clock distr light n).nowCalls - 1)
      - (cycleThroughPhases clock distr light n).start) (by omega) h3
    rw [h4] at this
    cases this
  have hmono := hc (cycleThroughPhases clock distr light n).nowCalls
  have hstart : (cycleThroughPhases clock distr light (n + 1)).start
      = clock ((cycleThroughPhases clock distr light n).nowCalls + 1) := by
    simp only [cycleThroughPhases, iteration_due hdue]
  refine ⟨hstart, h1, h4, ?_, ?_⟩
  · rw [hstart]
    omega
  · rw [hstart]
    omega

/-- Witness for C9: readings three seconds apart and a drawn duration of
4000 ms. The reading at 3 s is tested and found not due, the reading at 6 s
makes the toggle due, and the start timestamp is reset at 9 s. -/
theorem C9_toggle_interval_witness :
    (cycleThroughPhases clockEvery3s distrConst4000 TrafficLight.ctor 2).start
      = clockEvery3s ((cycleThroughPhases clockEvery3s distrConst4000 TrafficLight.ctor 1).nowCalls
          + 1) ∧
    1 ≤ (cycleThroughPhases clockEvery3s distrConst4000 TrafficLight.ctor 1).nowCalls ∧
    toggleDue
      (clockEvery3s ((cycleThroughPhases clockEvery3s distrConst4000 TrafficLight.ctor 1).nowCalls
          - 1)
        - (cycleThroughPhases clockEvery3s distrConst4000 TrafficLight.ctor 1).start)
      (cycleThroughPhases clockEvery3s distrConst4000 TrafficLight.ctor 1).cycle_duration
      = false ∧
    4000 * 1000000 ≤ (cycleThroughPhases clockEvery3s distrConst4000 TrafficLight.ctor 2).start
      - (cycleThroughPhases clockEvery3s distrConst4000 TrafficLight.ctor 1).start ∧
    (cycleThroughPhases clockEvery3s distrConst4000 TrafficLight.ctor 2).start
      - (cycleThroughPhases clockEvery3s distrConst4000 TrafficLight.ctor 1).start
      ≤ 6000 * 1000000 + 256
        + ((cycleThroughPhases clockEvery3s distrConst4000 TrafficLight.ctor 2).start
          - clockEvery3s
              ((cycleThroughPhases clockEvery3s distrConst4000 TrafficLight.ctor 1).nowCalls
                - 1)) :=
  C9_toggle_interval clockEvery3s distrConst4000 TrafficLight.ctor 1
    (fun _ => by simp [distrConst4000])
    (fun i => by simp only [clockEvery3s]; push_cast; omega)
    (by rw [run3s_1]; exact toggleDue_6s)

/-! ## Claim on a missed green -/

/-- C10: a transient green can be missed. A waiter that starts on the fresh
channel of a new traffic light is suspended in `receive`. In the run where the
loop of the actor toggles twice before the waiter runs again, the actor has
published green and then red, the channel holds only red, and the waiter,
going on with its loop, receives red, finds the container empty and is
suspended again. From a channel that holds no green it never returns, and it
returns once a later green is sent. -/
theorem C10_transient_green_missed :
    (∀ fuel, waitForGreen MessageQueue.receive (fuel + 1) TrafficLight.ctor._queue
      = .blocked MessageQueue.fresh) ∧
    (cycleThroughPhases clockEvery5s distrConst4000 TrafficLight.ctor 2).sent
      = [TrafficLightPhase.green, TrafficLightPhase.red] ∧
    (cycleThroughPhases clockEvery5s distrConst4000 TrafficLight.ctor 2).light._queue
      = (MessageQueue.fresh.send TrafficLightPhase.green).send TrafficLightPhase.red ∧
    (∀ fuel, waitForGreen MessageQueue.receive (fuel + 2)
        (cycleThroughPhases clockEvery5s distrConst4000 TrafficLight.ctor 2).light._queue
      = .blocked MessageQueue.fresh) ∧
    (∀ (fuel : Nat) (q q' : MessageQueue TrafficLightPhase),
      (∀ m ∈ q._msgs, m ≠ TrafficLightPhase.green) →
      waitForGreen MessageQueue.receive fuel q ≠ .returned q') ∧
    (∀ fuel, waitForGreen MessageQueue.receive (fuel + 1)
        ((MessageQueue.fresh : MessageQueue TrafficLightPhase).send TrafficLightPhase.green)
      = .returned MessageQueue.fresh) := by
  refine ⟨fun _ => rfl, by rw [run5s_2], by rw [run5s_2]; rfl, ?_,
    waitForGreen_receive_not_returned, fun _ => rfl⟩
  intro fuel
  have hq : (cycleThroughPhases clockEvery5s distrConst4000 TrafficLight.ctor 2).light._queue
      = ⟨[TrafficLightPhase.red]⟩ := by rw [run5s_2]
  rw [hq]
  rfl

end TrafficLightSim
